import Mathlib

/-!
Verification of the zima statistical library (resampling + estimator core).

Shallow embedding conventions:

* A Rust float (`f32`/`f64`) is modelled by `F := Option ℚ`: `none` is NaN,
  `some q` a finite value of exact magnitude `q`.  Arithmetic is the ideal
  (round-off-free) rational arithmetic; NaN propagates through every
  operation, and every ordered comparison involving NaN is `false`, as in
  IEEE 754.  Infinities are outside the model: the embedded code paths never
  produce one (the single place a finite value is divided by zero —
  `recip 0` inside `Mean` on an empty slice — is multiplied by the exact
  zero sum, which yields NaN both in IEEE and in this model).  The sign of
  zero is not modelled; no embedded comparison or arithmetic path
  distinguishes `-0.0` from `0.0`.
* `f64::sqrt` is modelled by `Fsqrt`: NaN for NaN or negative input,
  otherwise a nonnegative rational that is exact whenever the mathematical
  square root is rational (every theorem below evaluates `Fsqrt` only at
  such points).
* A random generator (`rand::Rng`) is modelled by the stream of draws it
  produces: a function `ℕ → ℕ` consumed at an explicit cursor, with
  `gen_range(0..n)` taking the draw modulo `n`.  The `Flipper` bit
  reservoir is modelled by the stream of control bits it hands out, one per
  output element.  Distributional (uniformity) properties are out of scope.
* A Rust iterator with state `σ` yielding `β` is a step function
  `σ → Option (β × σ)`; `iterPull` runs it from a state for a number of
  pulls, leaving the state unchanged on an exhausted (`none`) step, exactly
  like a fused Rust iterator.
-/

namespace Zima

/-- Model of an IEEE float value: `none` is NaN, `some q` a finite value. -/
abbrev F : Type := Option ℚ

/-- Float addition; NaN-propagating. -/
def Fadd : F → F → F
  | some a, some b => some (a + b)
  | _, _ => none

/-- Float subtraction; NaN-propagating. -/
def Fsub : F → F → F
  | some a, some b => some (a - b)
  | _, _ => none

/-- Float multiplication; NaN-propagating. -/
def Fmul : F → F → F
  | some a, some b => some (a * b)
  | _, _ => none

/-- Float negation; NaN stays NaN (sign of a NaN payload is not observable
in the embedded paths). -/
def Fneg : F → F
  | some a => some (-a)
  | none => none

/-- Float division.  `x / 0` is NaN in the model: the embedded code only
ever divides by a value that was checked to be nonzero, or divides the
exact zero (where IEEE also yields NaN). -/
def Fdiv : F → F → F
  | some a, some b => if b = 0 then none else some (a / b)
  | _, _ => none

/-- Model of `Float::recip`; `recip 0` is NaN in the model (see `Fdiv`). -/
def Frecip (x : F) : F := Fdiv (some 1) x

/-- Model of `Float::abs` on finite values; NaN stays NaN. -/
def Fabs : F → F
  | some a => some |a|
  | none => none

/-- IEEE `<=`: false whenever either side is NaN. -/
def Fle : F → F → Bool
  | some a, some b => a ≤ b
  | _, _ => false

/-- IEEE `<`: false whenever either side is NaN. -/
def Flt : F → F → Bool
  | some a, some b => a < b
  | _, _ => false

/-- IEEE `>`: false whenever either side is NaN. -/
def Fgt (x y : F) : Bool := Flt y x

/-- IEEE `>=`: false whenever either side is NaN. -/
def Fge (x y : F) : Bool := Fle y x

/-- Model of `Float::is_nan`. -/
def FisNaN (x : F) : Bool := x.isNone

/-- Model of `Float::is_zero` (num_traits `Zero::is_zero`). -/
def FisZero (x : F) : Bool := x = some 0

/-- Model of `T::from_usize(n)`: exact conversion of a count to a float value. -/
def FofNat (n : ℕ) : F := some (n : ℚ)

/-- Nonnegative rational square root, exact at perfect squares: for
`q = a² / b²` (lowest terms) it returns `a / b`.  At other nonnegative
rationals it is some nonnegative approximation; no theorem below evaluates
it there. -/
def ratSqrt (q : ℚ) : ℚ := (Nat.sqrt q.num.toNat : ℚ) / (Nat.sqrt q.den : ℚ)

/-- Model of `f64::sqrt`: NaN for NaN or negative input, else `ratSqrt`. -/
def Fsqrt : F → F
  | none => none
  | some q => if q < 0 then none else some (ratSqrt q)

/-- One step of the Kahan compensated summation loop, exactly as written in
the source (`y = x - c; t = sum + y; c = (t - sum) - y; sum = t`), on the
state `(sum, c)`. -/
def kahanStep (acc : F × F) (x : F) : F × F :=
  let y := Fsub x acc.2
  let t := Fadd acc.1 y
  (t, Fsub (Fsub t acc.1) y)

/-- Kahan compensated sum of a list of float values (both accumulators
start at zero, as in the source loops). -/
def kahanSum (l : List F) : F := (l.foldl kahanStep (some 0, some 0)).1

/-- Model of `Mean::compute` (src/statistics/mean.rs): Kahan sum, then
`sum * from_usize(len).recip()`.  On the empty slice this is
`0 * recip 0` = NaN. -/
def meanCompute (data : List F) : F :=
  Fmul (kahanSum data) (Frecip (FofNat data.length))

/-- Model of `Variance::compute` (src/statistics/basic/variance.rs): NaN for
`n < 2`, else Kahan sum of squared deviations divided by `n - ddof`. -/
def varianceCompute (ddof : ℕ) (data : List F) : F :=
  if data.length < 2 then none
  else
    let mean := meanCompute data
    let sqSum := kahanSum (data.map (fun x => Fmul (Fsub x mean) (Fsub x mean)))
    Fdiv sqSum (FofNat (data.length - ddof))

/-- Model of `FourthCumulant::compute` (src/statistics/basic/cumulant.rs).  The
source keeps the two compensated sums (`sum2`, `sum4`) in one pass; they
are independent accumulators and are embedded as two Kahan folds. -/
def fourthCumulantCompute (unbiased : Bool) (data : List F) : F :=
  let n := data.length
  if n < 4 ∧ unbiased then none
  else if n < 2 then none
  else
    let nf : F := FofNat n
    let mean := meanCompute data
    let m2 := Fdiv (kahanSum (data.map (fun x =>
      Fmul (Fsub x mean) (Fsub x mean)))) nf
    let m4 := Fdiv (kahanSum (data.map (fun x =>
      Fmul (Fmul (Fsub x mean) (Fsub x mean)) (Fmul (Fsub x mean) (Fsub x mean))))) nf
    if unbiased then
      let n1 := Fsub nf (some 1)
      let n2 := Fsub nf (some 2)
      let n3 := Fsub nf (some 3)
      if FisZero n1 ∨ FisZero n2 ∨ FisZero n3 then none
      else
        let numerator := Fsub (Fmul (Fadd nf (some 1)) m4)
          (Fmul (Fmul (some 3) n1) (Fmul m2 m2))
        let denominator := Fmul (Fmul n1 n2) n3
        let correction := Fdiv (Fmul nf nf) denominator
        Fmul numerator correction
    else
      Fsub m4 (Fmul (some 3) (Fmul m2 m2))

/-- The intermediate `k4` of `Kurtosis::compute`
(src/statistics/basic/kurtosis.rs, unbiased branch):
`[n²(n+1)·m4 - 3·n·(n-1)·m2²] / [(n-1)(n-2)(n-3)]`. -/
def kurtosisK4 (data : List F) : F :=
  let n := data.length
  let nf : F := FofNat n
  let mean := meanCompute data
  let m2 := Fdiv (kahanSum (data.map (fun x =>
    Fmul (Fsub x mean) (Fsub x mean)))) nf
  let m4 := Fdiv (kahanSum (data.map (fun x =>
    Fmul (Fmul (Fsub x mean) (Fsub x mean)) (Fmul (Fsub x mean) (Fsub x mean))))) nf
  let n1 := Fsub nf (some 1)
  let n2 := Fsub nf (some 2)
  let n3 := Fsub nf (some 3)
  let numerator := Fsub (Fmul (Fmul (Fmul nf nf) (Fadd nf (some 1))) m4)
    (Fmul (Fmul (some 3) (Fmul nf n1)) (Fmul m2 m2))
  let denominator := Fmul (Fmul n1 n2) n3
  Fdiv numerator denominator

/-- Model of `Kurtosis::compute` (src/statistics/basic/kurtosis.rs):
`k4 / k2²` with `k2 = n/(n-1)·m2` in the unbiased branch,
`m4/m2² - 3` in the biased branch. -/
def kurtosisCompute (unbiased : Bool) (data : List F) : F :=
  let n := data.length
  if n < 4 ∧ unbiased then none
  else if n < 2 then none
  else
    let nf : F := FofNat n
    let mean := meanCompute data
    let m2 := Fdiv (kahanSum (data.map (fun x =>
      Fmul (Fsub x mean) (Fsub x mean)))) nf
    let m4 := Fdiv (kahanSum (data.map (fun x =>
      Fmul (Fmul (Fsub x mean) (Fsub x mean)) (Fmul (Fsub x mean) (Fsub x mean))))) nf
    if unbiased then
      let n1 := Fsub nf (some 1)
      let n2 := Fsub nf (some 2)
      let n3 := Fsub nf (some 3)
      if FisZero n1 ∨ FisZero n2 ∨ FisZero n3 then none
      else
        let k2 := Fmul (Fdiv nf n1) m2
        let k4 := kurtosisK4 data
        let denom := Fmul k2 k2
        if FisZero denom then none else Fdiv k4 denom
    else
      Fsub (Fdiv m4 (Fmul m2 m2)) (some 3)

/-- A random generator, modelled by the stream of raw draws it produces
and a cursor into that stream. -/
structure Rng where
  stream : ℕ → ℕ
  pos : ℕ

/-- Model of `rng.gen_range(0..n)`: one draw reduced modulo `n` (the source requires
`n > 0`; every embedded call site guarantees it). -/
def Rng.genRangeLt (r : Rng) (n : ℕ) : ℕ × Rng :=
  (r.stream r.pos % n, ⟨r.stream, r.pos + 1⟩)

/-- Model of `rng.gen_range(0..=i)`: one draw reduced modulo `i + 1`. -/
def Rng.genRangeIncl (r : Rng) (i : ℕ) : ℕ × Rng :=
  (r.stream r.pos % (i + 1), ⟨r.stream, r.pos + 1⟩)

/-- Result of pull number `i` (0-indexed) on an iterator with step
function `step`, starting from state `s`.  A `none` step leaves the state
unchanged, so an exhausted iterator keeps returning `none` (fused). -/
def iterPull (step : σ → Option (β × σ)) : σ → ℕ → Option β
  | s, 0 => (step s).map Prod.fst
  | s, i + 1 =>
    match step s with
    | none => iterPull step s i
    | some (_, s2) => iterPull step s2 i

/-- Model of `iterator.take(m).collect()`: the values of the first `m` pulls,
stopping early if the iterator is exhausted. -/
def takeCollect (step : σ → Option (β × σ)) : σ → ℕ → List β
  | _, 0 => []
  | s, m + 1 =>
    match step s with
    | none => []
    | some (b, s2) => b :: takeCollect step s2 m

/-- Model of `BootstrapIter::next` (src/resample/bootstrap.rs): always yields; each
of the `n` output slots is filled with `data[gen_range(0..n)]`.  With
`n = 0` the fill loop is empty and the yield is the empty sample.  The
index is always `< n`, so the `getD` default is never used. -/
def bootstrapNext [Inhabited α] (data : List α) (r : Rng) : Option (List α × Rng) :=
  let n := data.length
  some ((List.range n).map (fun i => data.getD (r.stream (r.pos + i) % n) default),
    ⟨r.stream, r.pos + n⟩)

/-- Model of `JackknifeIter::next` (src/resample/jackknife.rs): `none` once
`omit_idx ≥ n`, otherwise the input with index `omit_idx` omitted
(prefix `[0..omit)` then suffix `[omit+1..n)`), advancing `omit_idx`. -/
def jackknifeNext (data : List α) (omitIdx : ℕ) : Option (List α × ℕ) :=
  if data.length ≤ omitIdx then none
  else some (data.take omitIdx ++ data.drop (omitIdx + 1), omitIdx + 1)

/-- Model of `FlipperIter::next` (src/resample/flipper.rs), generic over the `Flip`
strategy as in the source: always yields; element `i` of the copied buffer
is passed through `flip` with one control bit from the reservoir.  The bit
reservoir is modelled by the stream `bits` of control bits consumed at a
cursor that advances by one per element.  With `n = 0` the source returns
the empty sample before touching the reservoir; here the map is empty and
the cursor does not move. -/
def flipperNext (flip : Bool → α → α) (bits : ℕ → Bool) (data : List α)
    (pos : ℕ) : Option (List α × ℕ) :=
  some (data.mapIdx (fun i x => flip (bits (pos + i)) x), pos + data.length)

/-- Swap of two positions of a list (the pointer swap in the source
shuffles); indices at the embedded call sites are always in bounds. -/
def listSwap [Inhabited α] (l : List α) (i j : ℕ) : List α :=
  (l.set i (l.getD j default)).set j (l.getD i default)

/-- Model of `ShuffleIter::next` (src/resample/shuffle.rs): always yields; the
buffer is a copy of the input shuffled by Fisher-Yates, iterating
`i = n-1, …, 1` and swapping with `j = gen_range(0..=i)`.  With `n ≤ 1`
the loop is empty. -/
def shuffleNext [Inhabited α] (data : List α) (r : Rng) : Option (List α × Rng) :=
  let n := data.length
  let fy := (List.range (n - 1)).reverse.map (· + 1)
  some (fy.foldl (fun acc i =>
    let d := acc.2.genRangeIncl i
    (listSwap acc.1 i d.1, d.2)) (data, r))

/-- Sampling strategy selector of `Subsample` (src/resample/subsampling.rs). -/
inductive SamplingMode
  | withoutReplacement
  | withReplacement
deriving DecidableEq

/-- Model of `SubsampleIter::sample_without_replacement`: reservoir sampling when
`k < n / 4` (fill with the first `k` elements, then for `i = k, …, n-1`
draw `j = gen_range(0..=i)` and replace slot `j` if `j < k`), otherwise
partial Fisher-Yates over the last `k` slots followed by truncation to the
first `k` elements. -/
def sampleWithoutReplacement [Inhabited α] (k : ℕ) (data : List α) (r : Rng) :
    List α × Rng :=
  let n := data.length
  if k = 0 then ([], r)
  else if k < n / 4 then
    ((List.range (n - k)).map (· + k)).foldl (fun acc i =>
      let d := acc.2.genRangeIncl i
      (if d.1 < k then acc.1.set d.1 (data.getD i default) else acc.1, d.2))
      (data.take k, r)
  else
    let shuffled := ((List.range k).map (· + (n - k))).reverse.foldl (fun acc i =>
      let d := acc.2.genRangeIncl i
      (listSwap acc.1 i d.1, d.2)) (data, r)
    (shuffled.1.take k, shuffled.2)

/-- Model of `SubsampleIter::sample_with_replacement`: `k` independent uniform
draws from the input (the source unrolls the loop by four; the draw order
per slot is unchanged). -/
def sampleWithReplacement [Inhabited α] (k : ℕ) (data : List α) (r : Rng) :
    List α × Rng :=
  let n := data.length
  ((List.range k).map (fun i => data.getD (r.stream (r.pos + i) % n) default),
    ⟨r.stream, r.pos + k⟩)

/-- Model of `SubsampleIter::next` (src/resample/subsampling.rs): empty input or a
zero target size yields the empty sample, otherwise one subsample in the
configured mode.  `k` is the subsample size already clamped by `re`
(`policy(n).min(n)`). -/
def subsampleNext [Inhabited α] (k : ℕ) (mode : SamplingMode) (data : List α)
    (r : Rng) : Option (List α × Rng) :=
  if data.isEmpty ∨ k = 0 then some ([], r)
  else some (match mode with
    | SamplingMode.withoutReplacement => sampleWithoutReplacement k data r
    | SamplingMode.withReplacement => sampleWithReplacement k data r)

/-- Model of `Subsample::re` computes the target size `policy(n).min(n)` before
building the iterator. -/
def subsampleSize (policy : ℕ → ℕ) (n : ℕ) : ℕ := min (policy n) n

/-- Model of `u64::wrapping_neg`. -/
def wrappingNeg64 (x : ℕ) : ℕ := (2 ^ 64 - x % 2 ^ 64) % 2 ^ 64

/-- The branchless mask of `SignBitFlip` (src/resample/flipper.rs):
`(control as u64).wrapping_neg() & 0x8000_0000_0000_0000`. -/
def signMask64 (control : Bool) : ℕ :=
  wrappingNeg64 (if control then 1 else 0) &&& 2 ^ 63

/-- Model of `SignBitFlip::flip` on the 64-bit pattern of an `f64` value:
`from_bits(to_bits(v) ^ mask)`. -/
def signBitFlip64 (control : Bool) (v : ℕ) : ℕ := v ^^^ signMask64 control

/-- Bit pattern of `f64::abs`: the sign bit cleared. -/
def absBits64 (v : ℕ) : ℕ := v &&& (2 ^ 63 - 1)

/-- Biased second and fourth central moments and the closed-form unbiased
fourth-cumulant identity from the specification:
`κ̂₄ = n²/((n-1)(n-2)(n-3)) · [(n+1)·m₄ - 3·(n-1)·m₂²]`.
This definition follows the wording of the spec, not the source; it is the
reference the source computations are compared against. -/
def kappa4Spec (data : List ℚ) : ℚ :=
  let n : ℚ := data.length
  let mean := data.sum / n
  let m2 := (data.map (fun x => (x - mean) ^ 2)).sum / n
  let m4 := (data.map (fun x => (x - mean) ^ 4)).sum / n
  n ^ 2 / ((n - 1) * (n - 2) * (n - 3)) * ((n + 1) * m4 - 3 * (n - 1) * m2 ^ 2)

/-- The sort of `EmpiricalCDF::from_float_slice` on NaN-free values: the
IEEE partial order on NaN-free floats is the total order of `ℚ`, under
which the sorted permutation of a list is unique, so any correct
comparison sort is an exact model. -/
def sortQ (l : List ℚ) : List ℚ := List.insertionSort (· ≤ ·) l

/-- Model of `EmpiricalCDF::from_float_slice` (src/statistics/cdf.rs): drop NaN
values, sort the rest. -/
def ecdfFromFloatSlice (data : List F) : List ℚ := sortQ (data.filterMap id)

/-- Model of `EmpiricalCDF::count_leq` (src/statistics/cdf.rs): the
`partition_point` of the not-greater predicate, which on the sorted point
list is the number of points `≤ x`. -/
def countLeq (sorted : List ℚ) (x : ℚ) : ℕ := sorted.countP (fun v => v ≤ x)

/-- Model of `Vec::dedup_by` with the equality predicate: collapse runs of adjacent
equal points. -/
def dedupAdj : List ℚ → List ℚ
  | [] => []
  | [x] => [x]
  | x :: y :: rest =>
    if x = y then dedupAdj (y :: rest) else x :: dedupAdj (y :: rest)

/-- The dominance-checking loop of `EmpiricalCDF::partial_cmp`: walk the
union jump points carrying the two dominance flags, clearing a flag when
its exact cross-multiplied comparison (`k₁·n₂` vs `k₂·n₁`) fails, and
returning `none` (early termination) the moment both flags are cleared. -/
def domLoop (a b : List ℚ) (nS nO : ℕ) :
    List ℚ → Bool → Bool → Option (Bool × Bool)
  | [], sd, od => some (sd, od)
  | x :: rest, sd, od =>
    let kS := countLeq a x
    let kO := countLeq b x
    let sd2 := sd && decide (kS * nO ≤ kO * nS)
    let od2 := od && decide (kO * nS ≤ kS * nO)
    if sd2 = false ∧ od2 = false then none
    else domLoop a b nS nO rest sd2 od2

/-- Model of `EmpiricalCDF::partial_cmp` (src/statistics/cdf.rs): `none` if either
ECDF is empty; otherwise run the dominance loop over the sorted,
deduplicated union of jump points and translate the two flags into an
ordering. -/
def ecdfPartialCmp (a b : List ℚ) : Option Ordering :=
  if a.isEmpty ∨ b.isEmpty then none
  else
    let points := dedupAdj (sortQ (a ++ b))
    match domLoop a b a.length b.length points true true with
    | none => none
    | some (true, true) => some Ordering.eq
    | some (true, false) => some Ordering.lt
    | some (false, true) => some Ordering.gt
    | some (false, false) => none

/-- The branchless index of `Quantile::compute`:
`ceil(n·p) as usize`, then saturating subtraction of 1, then `min (n-1)`.
`Int.toNat` models the `as usize` cast of the integral `ceil` result
(negative values clamp to zero), and `ℕ` subtraction is saturating. -/
def quantileIndex (n : ℕ) (p : ℚ) : ℕ :=
  min ((Int.ceil ((n : ℚ) * p)).toNat - 1) (n - 1)

/-- Model of `Quantile::compute` (src/statistics/quantile.rs); the `assert!` panic
on an empty distribution is modelled as `none`.  The index is provably
`< n`, so the `getD` default is never used. -/
def quantileCompute (p : ℚ) (ecdf : List ℚ) : Option ℚ :=
  if ecdf.length = 0 then none
  else some (ecdf.getD (quantileIndex ecdf.length p) 0)

/-- Model of `QuantileInterval::compute` (src/statistics/quantile.rs); the
`assert!` panic on an empty distribution is modelled as `none`. -/
def quantileIntervalCompute (lower upper : ℚ) (ecdf : List ℚ) :
    Option (ℚ × ℚ) :=
  if ecdf.length = 0 then none
  else some (ecdf.getD (quantileIndex ecdf.length lower) 0,
    ecdf.getD (quantileIndex ecdf.length upper) 0)

/-- Model of `QuantileInterval::percentile`: `alpha = 1 - confidence`, probabilities
`(alpha/2, 1 - alpha/2)`. -/
def percentileBounds (confidence : ℚ) : ℚ × ℚ :=
  ((1 - confidence) / 2, 1 - (1 - confidence) / 2)

/-- Model of `Interval<T>` (src/statistics/ci.rs); `confidence` is an `f64` and is
modelled as an `F` value as well. -/
structure IntervalF where
  lower : F
  upper : F
  estimate : Option F
  confidence : Option F
deriving DecidableEq

/-- Model of `Interval::new`. -/
def intervalNew (lo hi : F) : IntervalF := ⟨lo, hi, none, none⟩

/-- Model of `Interval::nan`: the NaN sentinel interval. -/
def intervalNan : IntervalF := intervalNew none none

/-- Model of `Interval::contains`: `lower <= value && value <= upper` with IEEE
comparison semantics. -/
def intervalContains (iv : IntervalF) (v : F) : Bool :=
  Fle iv.lower v && Fle v iv.upper

/-- Model of `Interval::is_valid` (src/statistics/ci.rs): early-return false when
`lower > upper`, when a present estimate satisfies
`est < lower || est > upper`, else the confidence check. -/
def intervalIsValid (iv : IntervalF) : Bool :=
  if Fgt iv.lower iv.upper then false
  else if (match iv.estimate with
    | some est => Flt est iv.lower || Fgt est iv.upper
    | none => false) then false
  else (match iv.confidence with
    | none => true
    | some c => Fgt c (some 0) && Flt c (some 1))

/-- Model of `iterator.take(m).collect()` for a pull-indexed view of an iterator
(`it i` = result of pull `i`): collect until `m` values are taken or a
pull is exhausted.  A resampler (`Re` trait object) is modelled as the
family of such pull functions, one per input sample. -/
def collectPulls (it : ℕ → Option β) : ℕ → ℕ → List β
  | _, 0 => []
  | i, m + 1 =>
    match it i with
    | none => []
    | some b => b :: collectPulls it (i + 1) m

/-- Model of `SE::compute` (src/statistics/se.rs): the statistic over the first
`samples` resamples, then the square root of the ddof-1 variance of those
estimates. -/
def seCompute (stat : List F → F) (re : List F → ℕ → Option (List F))
    (samples : ℕ) (data : List F) : F :=
  Fsqrt (varianceCompute 1 ((collectPulls (re data) 0 samples).map stat))

/-- The retained studentized pivots of `StudentizedBootstrap::compute`:
for each of the first `samples` outer resamples compute the statistic and
its (inner-resampling) SE, discard the resample when the SE is zero or
either quantity is NaN, else keep `(θ* - θ̂)/SE*`. -/
def pivotValues (stat : List F → F) (innerRe : List F → ℕ → Option (List F))
    (seSamples : ℕ) (outerRe : List F → ℕ → Option (List F)) (samples : ℕ)
    (data : List F) : List F :=
  let thetaHat := stat data
  (collectPulls (outerRe data) 0 samples).filterMap (fun resample =>
    let thetaStar := stat resample
    let seStar := seCompute stat innerRe seSamples resample
    if FisZero seStar || FisNaN thetaStar || FisNaN seStar then none
    else some (Fdiv (Fsub thetaStar thetaHat) seStar))

/-- The pivot quantile pair of `StudentizedBootstrap::compute`: the
percentile quantiles of the ECDF of the retained pivots (`none` when that
ECDF is empty, where the source would panic in `QuantileInterval`). -/
def pivotQuantiles (stat : List F → F) (innerRe : List F → ℕ → Option (List F))
    (seSamples : ℕ) (outerRe : List F → ℕ → Option (List F)) (samples : ℕ)
    (confidence : ℚ) (data : List F) : Option (ℚ × ℚ) :=
  let pb := percentileBounds confidence
  quantileIntervalCompute pb.1 pb.2
    (ecdfFromFloatSlice (pivotValues stat innerRe seSamples outerRe samples data))

/-- Model of `StudentizedBootstrap::compute` (src/statistics/studentized_bootstrap.rs):
NaN interval when the SE of the estimate is NaN or zero or fewer than two
pivots are retained; otherwise the pivotal interval
`[θ̂ - t_hi·SE(θ̂), θ̂ - t_lo·SE(θ̂)]` carrying the estimate and the
confidence level.  The unreachable-in-intent `QuantileInterval` panic
(every retained pivot NaN, possible only when `θ̂` is NaN) is modelled as
the NaN interval. -/
def studentizedBootstrapCompute (stat : List F → F)
    (innerRe : List F → ℕ → Option (List F)) (seSamples : ℕ)
    (outerRe : List F → ℕ → Option (List F)) (samples : ℕ)
    (confidence : ℚ) (data : List F) : IntervalF :=
  let thetaHat := stat data
  let seThetaHat := seCompute stat innerRe seSamples data
  if FisNaN seThetaHat || FisZero seThetaHat then intervalNan
  else
    let tStar := pivotValues stat innerRe seSamples outerRe samples data
    if tStar.length < 2 then intervalNan
    else
      match pivotQuantiles stat innerRe seSamples outerRe samples confidence data with
      | none => intervalNan
      | some (tLo, tHi) =>
        { lower := Fsub thetaHat (Fmul (some tHi) seThetaHat)
          upper := Fsub thetaHat (Fmul (some tLo) seThetaHat)
          estimate := some thetaHat
          confidence := some (some confidence) }

/-- Model of `SignBitFlip` at the value level (used by the hypothesis tests): the
sign-bit toggle is exact negation on finite values and keeps NaN NaN. -/
def FflipSign (control : Bool) (x : F) : F := if control then Fneg x else x

/-- Model of `TestResult` of the permutation tests (src/hypothesis/mean.rs). -/
structure TestResultF where
  observed_statistic : F
  p_value : F
deriving DecidableEq

/-- The `extreme_count` of `MeanTest::compute` (src/hypothesis/mean.rs):
among the means of the first `n_permutations` sign-flip resamples of the
centered data, the number whose absolute value is at least the observed
absolute mean.  The flipper never exhausts, so the source's map-then-take
equals taking `n_permutations` resamples and mapping `Mean` over them. -/
def meanTestExtreme (nullMean : F) (nPerm : ℕ) (bits : ℕ → Bool)
    (data : List F) : ℕ :=
  let centered := data.map (fun x => Fsub x nullMean)
  (((takeCollect (flipperNext FflipSign bits centered) 0 nPerm).map meanCompute).filter
    (fun stat => Fge (Fabs stat) (Fabs (meanCompute centered)))).length

/-- Model of `MeanTest::compute` (src/hypothesis/mean.rs), with the
permutation count split into `meanTestExtreme`. -/
def meanTestCompute (nullMean : F) (nPerm : ℕ) (bits : ℕ → Bool)
    (data : List F) : TestResultF :=
  if data.length = 0 then ⟨some 0, some 1⟩
  else
    ⟨meanCompute (data.map (fun x => Fsub x nullMean)),
     Fdiv (FofNat (meanTestExtreme nullMean nPerm bits data + 1)) (FofNat (nPerm + 1))⟩

/-- The `extreme_count` of `VarianceTest::compute`
(src/hypothesis/variance.rs): among the absolute deviations
`|s²(resample) - σ₀²|` of the first `n_permutations` sign-flip resamples of
the mean-centered data, the number at least the observed deviation. -/
def varianceTestExtreme (nullVariance : F) (nPerm : ℕ) (bits : ℕ → Bool)
    (data : List F) : ℕ :=
  let centered := data.map (fun x => Fsub x (meanCompute data))
  (((takeCollect (flipperNext FflipSign bits centered) 0 nPerm).map
      (fun resample => Fabs (Fsub (varianceCompute 1 resample) nullVariance))).filter
    (fun dev => Fge dev (Fabs (Fsub (varianceCompute 1 centered) nullVariance)))).length

/-- Model of `VarianceTest::compute` (src/hypothesis/variance.rs), with the
permutation count split into `varianceTestExtreme`. -/
def varianceTestCompute (nullVariance : F) (nPerm : ℕ) (bits : ℕ → Bool)
    (data : List F) : TestResultF :=
  if data.length < 2 then ⟨none, some 1⟩
  else
    ⟨varianceCompute 1 (data.map (fun x => Fsub x (meanCompute data))),
     Fdiv (FofNat (varianceTestExtreme nullVariance nPerm bits data + 1))
       (FofNat (nPerm + 1))⟩

/-- The alternating-series loop of `KSTest::compute`.  `fexp` models
`f64::exp` (an external math routine).  `prevTerm = none` models the
`f64::INFINITY` initial value of `prev_term`, against which the relative
negligibility test always passes. -/
def ksSeriesLoop (fexp : ℚ → ℚ) (dsqn : ℚ) :
    ℕ → ℕ → ℚ → Option ℚ → ℚ
  | 0, _, p, _ => p
  | fuel + 1, k, p, prevTerm =>
    if 100 < k then p
    else
      let exponent := -2 * (k : ℚ) ^ 2 * dsqn
      if exponent < -700 then p
      else
        let term := (-1 : ℚ) ^ (k - 1) * fexp exponent
        let negligible : Bool := decide (|term| < 1 / 10 ^ 15) ||
          (match prevTerm with
            | none => true
            | some pt => decide (|term| < pt * (1 / 10 ^ 12)))
        if negligible then p + term
        else ksSeriesLoop fexp dsqn fuel (k + 1) (p + term) (some |term|)

/-- Model of `KSTest::compute` (src/hypothesis/kolmogorov.rs).  `phi` models the
standard normal CDF of the external statrs dependency; `fexp` models
`f64::exp`.  Note the source divides ranks by the pre-filter length `n`
while iterating the NaN-filtered ECDF points. -/
def ksTestCompute (phi : ℚ → ℚ) (fexp : ℚ → ℚ) (data : List F) : TestResultF :=
  if data.length = 0 then ⟨some 0, some 1⟩
  else
    let n : ℚ := data.length
    let ecdf := ecdfFromFloatSlice data
    let dm := ecdf.enum.foldl (fun (acc : ℚ × ℚ) ix =>
      let fx := phi ix.2
      let dplus := ((ix.1 : ℚ) + 1) / n - fx
      let dminus := fx - (ix.1 : ℚ) / n
      (if acc.1 < dplus then dplus else acc.1,
       if acc.2 < dminus then dminus else acc.2)) (0, 0)
    let dMax := if dm.2 < dm.1 then dm.1 else dm.2
    let pValue :=
      if dMax ≤ 0 then 1
      else if 1 ≤ dMax then 0
      else
        let p := ksSeriesLoop fexp (dMax * dMax * n) 100 1 0 none
        min 1 (max 0 (2 * p))
    ⟨some dMax, some pValue⟩

/-- Model of `Jackknife::re` (src/resample/jackknife.rs): a fresh
`JackknifeIter` with `omit_idx = 0`, viewed as its pull function. -/
def jackknifeRe (data : List F) : ℕ → Option (List F) :=
  iterPull (jackknifeNext data) 0

/-- Model of `Bootstrap::re` (src/resample/bootstrap.rs): a fresh
`BootstrapIter` seeded with a clone of the resampler generator. -/
def bootstrapRe (r : Rng) (data : List F) : ℕ → Option (List F) :=
  iterPull (fun st => bootstrapNext data st) r

/-- Model of `Flipper::re` (src/resample/flipper.rs): a fresh `FlipperIter`
with the bit cursor at the start of the control-bit stream. -/
def flipperRe (flip : Bool → F → F) (bits : ℕ → Bool) (data : List F) :
    ℕ → Option (List F) :=
  iterPull (flipperNext flip bits data) 0

/-- Model of `Shuffle::re` (src/resample/shuffle.rs). -/
def shuffleRe (r : Rng) (data : List F) : ℕ → Option (List F) :=
  iterPull (fun st => shuffleNext data st) r

/-- Model of `Subsample::re` (src/resample/subsampling.rs): computes the
clamped target size, then a fresh `SubsampleIter`. -/
def subsampleRe (policy : ℕ → ℕ) (mode : SamplingMode) (r : Rng)
    (data : List F) : ℕ → Option (List F) :=
  iterPull (fun st => subsampleNext (subsampleSize policy data.length) mode data st) r

/-! Helper lemmas about the embedding.  In exact arithmetic the Kahan
compensation term is identically zero, so the compensated sum of finite
values is the plain sum. -/

theorem kahan_foldl_map_some (l : List ℚ) :
    ∀ s : ℚ, (l.map some).foldl kahanStep (some s, some 0) =
      (some (s + l.sum), some 0) := by
  induction l with
  | nil => intro s; simp
  | cons x xs ih =>
    intro s
    have hstep : kahanStep (some s, some 0) (some x) = (some (s + x), some 0) := by
      simp [kahanStep, Fsub, Fadd]
    simp only [List.map_cons, List.foldl_cons, hstep, ih (s + x), List.sum_cons]
    ring_nf

theorem kahanSum_map_some (l : List ℚ) : kahanSum (l.map some) = some l.sum := by
  simpa [kahanSum] using congrArg Prod.fst (kahan_foldl_map_some l 0)

theorem meanCompute_map_some (l : List ℚ) (h : l ≠ []) :
    meanCompute (l.map some) = some (l.sum / l.length) := by
  have hn : (l.length : ℚ) ≠ 0 := by
    have := List.length_pos.mpr h
    positivity
  simp [meanCompute, kahanSum_map_some, Frecip, Fdiv, FofNat, Fmul, hn,
    div_eq_mul_inv]

theorem ratSqrt_nonneg (q : ℚ) : 0 ≤ ratSqrt q := by
  unfold ratSqrt
  positivity

theorem Fsqrt_eq_some (x : F) (s : ℚ) (h : Fsqrt x = some s) : 0 ≤ s := by
  cases x with
  | none => simp [Fsqrt] at h
  | some q =>
    by_cases hq : q < 0
    · simp [Fsqrt, hq] at h
    · simp [Fsqrt, hq] at h
      simpa [← h] using ratSqrt_nonneg q

theorem takeCollect_flipper_length (flip : Bool → α → α) (bits : ℕ → Bool)
    (data : List α) : ∀ (m : ℕ) (pos : ℕ),
    (takeCollect (flipperNext flip bits data) pos m).length = m := by
  intro m
  induction m with
  | zero => intro pos; simp [takeCollect]
  | succ k ih => intro pos; simp [takeCollect, flipperNext, ih]

theorem jackknife_iterPull (data : List α) : ∀ (i j : ℕ),
    iterPull (jackknifeNext data) j i =
      if j + i < data.length
      then some (data.take (j + i) ++ data.drop (j + i + 1))
      else none := by
  intro i
  induction i with
  | zero =>
    intro j
    by_cases h : data.length ≤ j
    · simp [iterPull, jackknifeNext, h, Nat.not_lt.mpr h]
    · simp [iterPull, jackknifeNext, h, Nat.lt_of_not_le h]
  | succ k ih =>
    intro j
    by_cases h : data.length ≤ j
    · have h2 : ¬ j + (k + 1) < data.length := by omega
      simp [iterPull, jackknifeNext, h, h2, ih j]
      omega
    · have := ih (j + 1)
      simp only [iterPull, jackknifeNext, if_neg h]
      rw [this]
      by_cases h3 : j + 1 + k < data.length
      · rw [if_pos h3, if_pos (by omega)]
        have : j + 1 + k = j + (k + 1) := by omega
        rw [this]
      · rw [if_neg h3, if_neg (by omega)]

theorem Fadd_some (a b : ℚ) : Fadd (some a) (some b) = some (a + b) := rfl

theorem Fsub_some (a b : ℚ) : Fsub (some a) (some b) = some (a - b) := rfl

theorem Fmul_some (a b : ℚ) : Fmul (some a) (some b) = some (a * b) := rfl

theorem Fdiv_some (a b : ℚ) (h : b ≠ 0) : Fdiv (some a) (some b) = some (a / b) := by
  simp [Fdiv, h]

/-- C1 (counterexample): the claim says every resampler, Jackknife
included, yields `Some` of an empty resample on the first pull for a
zero-length input; but the Jackknife iterator starts with
`omit_idx = 0 ≥ n = 0` and its first pull returns `None`. -/
theorem c1_counterexample : jackknifeRe [] 0 = none := by decide

/-- C1 (amended): on a zero-length input, the first pull yields `Some` of
an empty resample for Bootstrap, Flipper, Shuffle and Subsample (for every
generator state, flip strategy, bit stream, size policy and mode), while
Jackknife — a finite iterator of exactly `n = 0` resamples — yields `None`
on its first pull. -/
theorem c1_empty_input : ∀ (r : Rng) (flip : Bool → F → F) (bits : ℕ → Bool)
    (policy : ℕ → ℕ) (mode : SamplingMode),
    bootstrapRe r [] 0 = some [] ∧
    flipperRe flip bits [] 0 = some [] ∧
    shuffleRe r [] 0 = some [] ∧
    subsampleRe policy mode r [] 0 = some [] ∧
    jackknifeRe [] 0 = none := by
  intro r flip bits policy mode
  refine ⟨?_, ?_, ?_, ?_, ?_⟩
  · simp [bootstrapRe, iterPull, bootstrapNext]
  · simp [flipperRe, iterPull, flipperNext]
  · simp [shuffleRe, iterPull, shuffleNext]
  · simp [subsampleRe, iterPull, subsampleNext, subsampleSize]
  · simp [jackknifeRe, iterPull, jackknifeNext]

/-- C4: the Jackknife iterator yields, at pull `i < n`, exactly the input
with index `i` omitted (prefix `0..i` then suffix `i+1..n`), of length
`n - 1`; and every pull at `i ≥ n` returns `None` (the iterator is fused:
its state never advances past `n`). -/
theorem c4_jackknife_pulls : ∀ (data : List F) (i : ℕ),
    (i < data.length →
      jackknifeRe data i = some (data.take i ++ data.drop (i + 1)) ∧
      (data.take i ++ data.drop (i + 1)).length = data.length - 1) ∧
    (data.length ≤ i → jackknifeRe data i = none) := by
  intro data i
  have hpull := jackknife_iterPull data i 0
  rw [Nat.zero_add] at hpull
  constructor
  · intro h
    refine ⟨by rw [jackknifeRe, hpull, if_pos h], ?_⟩
    simp only [List.length_append, List.length_take, List.length_drop]
    omega
  · intro h
    rw [jackknifeRe, hpull, if_neg (by omega)]

/-- C4 (witness): on the three-element sample `[1, 2, 3]`, pull 1 yields
`[1, 3]` of length 2, and pull 5 yields `None`. -/
theorem c4_jackknife_pulls_witness :
    (jackknifeRe [some 1, some 2, some 3] 1 =
        some ([some 1, some 2, some 3].take 1 ++ [some 1, some 2, some 3].drop 2) ∧
      (([some 1, some 2, some 3] : List F).take 1 ++
        [some 1, some 2, some 3].drop 2).length = 3 - 1) ∧
    jackknifeRe [some 1, some 2, some 3] 5 = none :=
  ⟨(c4_jackknife_pulls [some 1, some 2, some 3] 1).1 (by norm_num),
   (c4_jackknife_pulls [some 1, some 2, some 3] 5).2 (by norm_num)⟩

/-- C8 (counterexample): the claim quantifies over every interval
including the NaN sentinel; `Interval::nan()` passes `is_valid` (every
IEEE comparison with NaN is false, so no early-return fires), yet its
bounds do not satisfy `lower <= upper` (that comparison is also false on
NaN). -/
theorem c8_counterexample :
    intervalIsValid intervalNan = true ∧
    Fle intervalNan.lower intervalNan.upper = false := by decide

/-- C8 (amended): whenever `is_valid` holds, the invariant holds on the
comparable (non-NaN) fields: finite bounds satisfy `lower ≤ upper`, a
present finite estimate lies within finite bounds, and a present
confidence is a finite value in the open interval `(0, 1)`.  The NaN
sentinel is reported valid while its NaN comparisons are vacuously
false. -/
theorem c8_is_valid_invariant : ∀ (iv : IntervalF),
    intervalIsValid iv = true →
    (∀ lo hi, iv.lower = some lo → iv.upper = some hi → lo ≤ hi) ∧
    (∀ e lo hi, iv.estimate = some (some e) → iv.lower = some lo →
      iv.upper = some hi → lo ≤ e ∧ e ≤ hi) ∧
    (∀ c, iv.confidence = some c → ∃ q, c = some q ∧ 0 < q ∧ q < 1) := by
  intro iv h
  unfold intervalIsValid at h
  split at h
  · exact absurd h (by simp)
  · split at h
    · exact absurd h (by simp)
    · rename_i hgt hest
      refine ⟨?_, ?_, ?_⟩
      · intro lo hi hL hU
        rw [hL, hU] at hgt
        simpa [Fgt, Flt] using hgt
      · intro e lo hi hE hL hU
        rw [hE, hL, hU] at hest
        simp only [Flt, Fgt, Bool.or_eq_true, decide_eq_true_eq] at hest
        push_neg at hest
        constructor
        · simpa using hest.1
        · simpa using hest.2
      · intro c hC
        rw [hC] at h
        cases c with
        | none => simp [Fgt, Flt] at h
        | some q =>
          refine ⟨q, rfl, ?_, ?_⟩
          · have := h
            simp only [Fgt, Flt, Bool.and_eq_true, decide_eq_true_eq] at this
            exact this.1
          · have := h
            simp only [Fgt, Flt, Bool.and_eq_true, decide_eq_true_eq] at this
            exact this.2

/-- C8 (witness): the invariant instantiated on the concrete valid
interval `[0, 2]` with estimate 1 and confidence 1/2. -/
theorem c8_is_valid_invariant_witness :
    intervalIsValid ⟨some 0, some 2, some (some 1), some (some (1 / 2))⟩ = true ∧
    (0 : ℚ) ≤ 2 := by
  have hv : intervalIsValid ⟨some 0, some 2, some (some 1), some (some (1 / 2))⟩ = true := by
    norm_num [intervalIsValid, Fgt, Flt]
  exact ⟨hv, (c8_is_valid_invariant _ hv).1 0 2 rfl rfl⟩

/-- C10: every degenerate input takes the early-return branch before any
permutation machinery: `MeanTest` on the empty sample reports statistic 0
and p-value 1 (for every generator bit stream and permutation count);
`VarianceTest` on `n < 2` reports statistic NaN and p-value 1; `KSTest` on
the empty sample reports statistic 0 and p-value 1 (for every model of the
external normal CDF and exponential). -/
theorem c10_degenerate_inputs : ∀ (phi fexp : ℚ → ℚ) (nullMean nullVariance : F)
    (nPerm : ℕ) (bits : ℕ → Bool) (data : List F),
    meanTestCompute nullMean nPerm bits [] = ⟨some 0, some 1⟩ ∧
    (data.length < 2 → varianceTestCompute nullVariance nPerm bits data = ⟨none, some 1⟩) ∧
    ksTestCompute phi fexp [] = ⟨some 0, some 1⟩ := by
  intro phi fexp nullMean nullVariance nPerm bits data
  refine ⟨by simp [meanTestCompute], ?_, by simp [ksTestCompute]⟩
  intro h
  simp [varianceTestCompute, h]

/-- C10 (witness): the degenerate branches at concrete inputs — the empty
sample for the mean and KS tests, a singleton sample for the variance
test. -/
theorem c10_degenerate_inputs_witness :
    (([some 5] : List F).length < 2 ∧
      varianceTestCompute (some 1) 7 (fun _ => false) [some 5] = ⟨none, some 1⟩) ∧
    meanTestCompute (some 0) 7 (fun _ => false) [] = ⟨some 0, some 1⟩ ∧
    ksTestCompute id id [] = ⟨some 0, some 1⟩ :=
  ⟨⟨by norm_num,
    (c10_degenerate_inputs id id (some 0) (some 1) 7 (fun _ => false) [some 5]).2.1
      (by norm_num)⟩,
   (c10_degenerate_inputs id id (some 0) (some 1) 7 (fun _ => false) []).1,
   (c10_degenerate_inputs id id (some 0) (some 1) 7 (fun _ => false) []).2.2⟩

/-- C2: in exact arithmetic, `FourthCumulant` (unbiased) equals the
closed-form identity `κ̂₄ = n²/((n-1)(n-2)(n-3))·[(n+1)·m₄ - 3·(n-1)·m₂²]`
for every sample of length at least 4; but the internal `k4` of the
unbiased `Kurtosis` does not: its `m₂²` coefficient is `3·n·(n-1)` instead
of `3·n²·(n-1)`.  On the sample `[0, 0, 0, 1]` the closed form (and
`FourthCumulant`) give `1/4` while the `Kurtosis` numerator gives
`113/128`, so the two modules do not compute the same value. -/
theorem c2_fourth_cumulant_identity :
    (∀ l : List ℚ, 4 ≤ l.length →
      fourthCumulantCompute true (l.map some) = some (kappa4Spec l)) ∧
    kappa4Spec [0, 0, 0, 1] = 1 / 4 ∧
    kurtosisK4 (([0, 0, 0, 1] : List ℚ).map some) = some (113 / 128) ∧
    (113 / 128 : ℚ) ≠ 1 / 4 := by
  refine ⟨?_, by norm_num [kappa4Spec], ?_, by norm_num⟩
  · intro l h
    have hne : l ≠ [] := List.ne_nil_of_length_pos (by omega)
    have hn0 : (l.length : ℚ) ≠ 0 := Nat.cast_ne_zero.mpr (by omega)
    have hμ := meanCompute_map_some l hne
    have hmap2 : (l.map some).map (fun x => Fmul (Fsub x (meanCompute (l.map some)))
        (Fsub x (meanCompute (l.map some)))) =
        (l.map (fun x => (x - l.sum / l.length) * (x - l.sum / l.length))).map some := by
      rw [hμ]; simp [List.map_map, Function.comp, Fsub, Fmul]
    have hmap4 : (l.map some).map (fun x =>
        Fmul (Fmul (Fsub x (meanCompute (l.map some))) (Fsub x (meanCompute (l.map some))))
          (Fmul (Fsub x (meanCompute (l.map some))) (Fsub x (meanCompute (l.map some))))) =
        (l.map (fun x => ((x - l.sum / l.length) * (x - l.sum / l.length)) *
          ((x - l.sum / l.length) * (x - l.sum / l.length)))).map some := by
      rw [hμ]; simp [List.map_map, Function.comp, Fsub, Fmul]
    have h1 : ((l.length : ℚ) - 1) ≠ 0 :=
      sub_ne_zero.mpr (by exact_mod_cast (by omega : l.length ≠ 1))
    have h2 : ((l.length : ℚ) - 2) ≠ 0 :=
      sub_ne_zero.mpr (by exact_mod_cast (by omega : l.length ≠ 2))
    have h3 : ((l.length : ℚ) - 3) ≠ 0 :=
      sub_ne_zero.mpr (by exact_mod_cast (by omega : l.length ≠ 3))
    have hf2 : (fun x : ℚ => (x - l.sum / l.length) * (x - l.sum / l.length)) =
        (fun x : ℚ => (x - l.sum / l.length) ^ 2) := by funext x; ring
    have hf4 : (fun x : ℚ => ((x - l.sum / l.length) * (x - l.sum / l.length)) *
        ((x - l.sum / l.length) * (x - l.sum / l.length))) =
        (fun x : ℚ => (x - l.sum / l.length) ^ 4) := by funext x; ring
    have hden : (((l.length : ℚ) - 1) * ((l.length : ℚ) - 2)) * ((l.length : ℚ) - 3) ≠ 0 :=
      mul_ne_zero (mul_ne_zero h1 h2) h3
    simp only [fourthCumulantCompute, List.length_map]
    rw [if_neg (by simp; omega), if_neg (by omega)]
    simp only [hmap2, hmap4, kahanSum_map_some, hf2, hf4, FofNat, Fadd_some,
      Fsub_some, Fmul_some]
    rw [if_pos trivial]
    rw [if_neg (by simp [FisZero, Fsub_some, FofNat, h1, h2, h3])]
    simp only [Fdiv_some _ _ hn0, Fdiv_some _ _ hden, Fmul_some, Fsub_some, Fadd_some]
    simp only [kappa4Spec, Option.some.injEq]
    field_simp
    ring
  · norm_num [kurtosisK4, meanCompute, kahanSum, kahanStep, Fadd, Fsub, Fmul,
      Fdiv, Frecip, FofNat, FisZero, List.foldl]

/-- C2 (witness): the identity instantiated on the concrete sample
`[0, 0, 0, 1]` of length 4. -/
theorem c2_fourth_cumulant_identity_witness :
    4 ≤ ([0, 0, 0, 1] : List ℚ).length ∧
    fourthCumulantCompute true (([0, 0, 0, 1] : List ℚ).map some) =
      some (kappa4Spec [0, 0, 0, 1]) :=
  ⟨by norm_num, c2_fourth_cumulant_identity.1 [0, 0, 0, 1] (by norm_num)⟩

theorem signMask64_eq (b : Bool) : signMask64 b = if b then 2 ^ 63 else 0 := by
  cases b <;> decide

theorem signBitFlip64_false (v : ℕ) : signBitFlip64 false v = v := by
  rw [signBitFlip64, signMask64_eq, if_neg (by simp), Nat.xor_zero]

theorem signBitFlip64_true (v : ℕ) : signBitFlip64 true v = v ^^^ 2 ^ 63 := by
  rw [signBitFlip64, signMask64_eq, if_pos rfl]

/-- C5: `SignBitFlip::flip` on any 64-bit pattern is the identity when the
control bit is clear, and inverts exactly bit 63 (the IEEE sign bit) when
it is set — every other bit of the pattern is untouched, NaN payloads and
zero/infinity patterns included — so the `abs` bit pattern (sign bit
cleared) is always preserved; and each `FlipperIter` output element is the
corresponding input element passed through `flip` with one control bit. -/
theorem c5_sign_bit_flip :
    (∀ v : ℕ, signBitFlip64 false v = v) ∧
    (∀ v : ℕ, (signBitFlip64 true v).testBit 63 = !(v.testBit 63)) ∧
    (∀ (v j : ℕ), j ≠ 63 → (signBitFlip64 true v).testBit j = v.testBit j) ∧
    (∀ (b : Bool) (v : ℕ), absBits64 (signBitFlip64 b v) = absBits64 v) ∧
    (∀ (bits : ℕ → Bool) (data : List ℕ) (pos : ℕ) (out : List ℕ) (pos2 : ℕ),
      flipperNext signBitFlip64 bits data pos = some (out, pos2) →
      out.length = data.length ∧
      ∀ i, i < data.length →
        out.getD i 0 = signBitFlip64 (bits (pos + i)) (data.getD i 0)) := by
  refine ⟨signBitFlip64_false, ?_, ?_, ?_, ?_⟩
  · intro v
    rw [signBitFlip64_true, Nat.testBit_xor, Nat.testBit_two_pow]
    simp
  · intro v j hj
    rw [signBitFlip64_true, Nat.testBit_xor, Nat.testBit_two_pow]
    simp [Ne.symm hj]
  · intro b v
    cases b
    · rw [signBitFlip64_false]
    · apply Nat.eq_of_testBit_eq
      intro j
      rw [absBits64, absBits64, Nat.testBit_land, Nat.testBit_land,
        signBitFlip64_true, Nat.testBit_xor, Nat.testBit_two_pow,
        Nat.testBit_two_pow_sub_one]
      by_cases hj : j = 63
      · subst hj; simp
      · simp [hj, Ne.symm hj]
  · intro bits data pos out pos2 h
    simp only [flipperNext, Option.some.injEq, Prod.mk.injEq] at h
    obtain ⟨hout, _⟩ := h
    subst hout
    refine ⟨by simp, ?_⟩
    intro i hi
    rw [List.getD_eq_getElem _ _ (by simpa using hi), List.getD_eq_getElem _ _ hi,
      List.getElem_mapIdx]

/-- C5 (witness): bit 5 of a flipped pattern is unchanged, and the flipper
output element on the one-element pattern list `[12]` is the flip of the
input element. -/
theorem c5_sign_bit_flip_witness :
    ((5 : ℕ) ≠ 63 ∧ (signBitFlip64 true 12).testBit 5 = Nat.testBit 12 5) ∧
    flipperNext signBitFlip64 (fun _ => true) [12] 0 =
      some ([signBitFlip64 true 12], 1) ∧
    [signBitFlip64 true 12].getD 0 0 =
      signBitFlip64 ((fun _ => true) (0 + 0)) ([12].getD 0 0) :=
  ⟨⟨by decide, c5_sign_bit_flip.2.2.1 12 5 (by decide)⟩, by decide,
   (c5_sign_bit_flip.2.2.2.2 (fun _ => true) [12] 0 [signBitFlip64 true 12] 1
     (by decide)).2 0 (by decide)⟩

theorem quantileIndex_eq_claim (n : ℕ) (p : ℚ) :
    quantileIndex n p = min (n - 1) (max 0 (⌈(n : ℚ) * p⌉ - 1)).toNat := by
  simp only [quantileIndex]
  omega

/-- C7: on every non-empty ECDF the discrete quantile is
`points[min(n-1, max(0, ceil(n·p)-1))]` with no interpolation; on the
empty ECDF it fails (the panic is modelled as `none`); and on the sorted
points `[1,2,3,4,5]` the median is 3, the 0-quantile is 1 and the
1-quantile is 5. -/
theorem c7_quantile_formula :
    (∀ (p : ℚ) (ecdf : List ℚ), ecdf ≠ [] → List.Sorted (· ≤ ·) ecdf →
      quantileCompute p ecdf = some (ecdf.getD
        (min (ecdf.length - 1) (max 0 (⌈(ecdf.length : ℚ) * p⌉ - 1)).toNat) 0)) ∧
    (∀ p : ℚ, quantileCompute p [] = none) ∧
    quantileCompute (1 / 2) [1, 2, 3, 4, 5] = some 3 ∧
    quantileCompute 0 [1, 2, 3, 4, 5] = some 1 ∧
    quantileCompute 1 [1, 2, 3, 4, 5] = some 5 := by
  refine ⟨?_, ?_, ?_, ?_, ?_⟩
  · intro p ecdf hne _hs
    have hlen : ecdf.length ≠ 0 := fun e => hne (List.length_eq_zero.mp e)
    rw [quantileCompute, if_neg hlen, quantileIndex_eq_claim]
  · intro p; simp [quantileCompute]
  · have hceil : (⌈(5 : ℚ) / 2⌉ : ℤ) = 3 := by
      rw [Int.ceil_eq_iff]
      constructor
      · push_cast; norm_num
      · push_cast; norm_num
    norm_num [quantileCompute, quantileIndex, hceil, List.getD]
    decide
  · norm_num [quantileCompute, quantileIndex, List.getD]
  · have hceil : (⌈(5 : ℚ)⌉ : ℤ) = 5 := by
      rw [Int.ceil_eq_iff]
      constructor
      · push_cast; norm_num
      · push_cast; norm_num
    norm_num [quantileCompute, quantileIndex, hceil, List.getD]
    decide

/-- C7 (witness): the general formula instantiated at the median of the
sorted five-point ECDF. -/
theorem c7_quantile_formula_witness :
    ([1, 2, 3, 4, 5] : List ℚ) ≠ [] ∧
    List.Sorted (· ≤ ·) ([1, 2, 3, 4, 5] : List ℚ) ∧
    quantileCompute (1 / 2) [1, 2, 3, 4, 5] =
      some (([1, 2, 3, 4, 5] : List ℚ).getD
        (min (([1, 2, 3, 4, 5] : List ℚ).length - 1)
          (max 0 (⌈(([1, 2, 3, 4, 5] : List ℚ).length : ℚ) * (1 / 2)⌉ - 1)).toNat) 0) :=
  ⟨by simp, by norm_num [List.sorted_cons],
   c7_quantile_formula.1 (1 / 2) [1, 2, 3, 4, 5] (by simp)
     (by norm_num [List.sorted_cons])⟩

/-- Membership is preserved by adjacent deduplication. -/
theorem mem_dedupAdj : ∀ (l : List ℚ) (x : ℚ), x ∈ dedupAdj l ↔ x ∈ l := by
  intro l
  induction l with
  | nil => simp [dedupAdj]
  | cons a t ih =>
    cases t with
    | nil => simp [dedupAdj]
    | cons b rest =>
      intro x
      by_cases hab : a = b
      · simp only [dedupAdj, if_pos hab]
        rw [ih x]
        subst hab
        simp [List.mem_cons]
      · simp only [dedupAdj, if_neg hab]
        simp [List.mem_cons, ih x]

/-- The dominance loop computes the two universally-quantified flags over
the walked points, returning `none` exactly when both fail. -/
theorem domLoop_eq (a b : List ℚ) (nS nO : ℕ) : ∀ (pts : List ℚ) (sd od : Bool),
    (sd || od) = true →
    domLoop a b nS nO pts sd od =
      (if (sd && pts.all (fun x => decide (countLeq a x * nO ≤ countLeq b x * nS))) ||
          (od && pts.all (fun x => decide (countLeq b x * nS ≤ countLeq a x * nO)))
       then some (sd && pts.all (fun x => decide (countLeq a x * nO ≤ countLeq b x * nS)),
                  od && pts.all (fun x => decide (countLeq b x * nS ≤ countLeq a x * nO)))
       else none) := by
  intro pts
  induction pts with
  | nil =>
    intro sd od h
    rcases Bool.or_eq_true_iff.mp h with h1 | h1 <;> simp [domLoop, h1]
  | cons x rest ih =>
    intro sd od h
    by_cases hboth : (sd && decide (countLeq a x * nO ≤ countLeq b x * nS)) = false ∧
        (od && decide (countLeq b x * nS ≤ countLeq a x * nO)) = false
    · rw [domLoop, if_pos hboth]
      rw [List.all_cons, List.all_cons, ← Bool.and_assoc, ← Bool.and_assoc,
        hboth.1, hboth.2]
      simp
    · have hor : ((sd && decide (countLeq a x * nO ≤ countLeq b x * nS)) ||
          (od && decide (countLeq b x * nS ≤ countLeq a x * nO))) = true := by
        cases hP : (sd && decide (countLeq a x * nO ≤ countLeq b x * nS)) <;>
          cases hQ : (od && decide (countLeq b x * nS ≤ countLeq a x * nO)) <;>
            simp_all
      rw [domLoop, if_neg hboth, ih _ _ hor]
      rw [List.all_cons, List.all_cons, ← Bool.and_assoc, ← Bool.and_assoc]
/-- Characterization of the stochastic-dominance comparison over the union
jump points, by exact cross-multiplied counts. -/
theorem ecdfPartialCmp_characterization :
    ∀ (a b : List ℚ), a ≠ [] → b ≠ [] →
      ((ecdfPartialCmp a b = some Ordering.lt ↔
          (∀ x ∈ a ++ b, countLeq a x * b.length ≤ countLeq b x * a.length) ∧
          (∃ x ∈ a ++ b, countLeq a x * b.length < countLeq b x * a.length)) ∧
       (ecdfPartialCmp a b = some Ordering.gt ↔
          (∀ x ∈ a ++ b, countLeq b x * a.length ≤ countLeq a x * b.length) ∧
          (∃ x ∈ a ++ b, countLeq b x * a.length < countLeq a x * b.length)) ∧
       (ecdfPartialCmp a b = some Ordering.eq ↔
          (∀ x ∈ a ++ b, countLeq a x * b.length = countLeq b x * a.length)) ∧
       (ecdfPartialCmp a b = none ↔
          (∃ x ∈ a ++ b, countLeq a x * b.length < countLeq b x * a.length) ∧
          (∃ x ∈ a ++ b, countLeq b x * a.length < countLeq a x * b.length))) := by
  intro a b ha hb
  have hne : ¬(a.isEmpty = true ∨ b.isEmpty = true) := by
    simp [List.isEmpty_iff, ha, hb]
  have hmem : ∀ x : ℚ, x ∈ dedupAdj (sortQ (a ++ b)) ↔ x ∈ a ++ b := fun x =>
    (mem_dedupAdj _ x).trans (List.mem_insertionSort _)
  have hcmp : ecdfPartialCmp a b =
      (match domLoop a b a.length b.length (dedupAdj (sortQ (a ++ b))) true true with
       | none => none
       | some (true, true) => some Ordering.eq
       | some (true, false) => some Ordering.lt
       | some (false, true) => some Ordering.gt
       | some (false, false) => none) := by
    rw [ecdfPartialCmp, if_neg hne]
  rw [hcmp, domLoop_eq a b a.length b.length _ true true rfl]
  have hB1 : ((dedupAdj (sortQ (a ++ b))).all
        (fun x => decide (countLeq a x * b.length ≤ countLeq b x * a.length)) = true) ↔
      (∀ x ∈ a ++ b, countLeq a x * b.length ≤ countLeq b x * a.length) := by
    rw [List.all_eq_true]
    constructor
    · intro h x hx
      simpa using h x ((hmem x).mpr hx)
    · intro h x hx
      simpa using h x ((hmem x).mp hx)
  have hB2 : ((dedupAdj (sortQ (a ++ b))).all
        (fun x => decide (countLeq b x * a.length ≤ countLeq a x * b.length)) = true) ↔
      (∀ x ∈ a ++ b, countLeq b x * a.length ≤ countLeq a x * b.length) := by
    rw [List.all_eq_true]
    constructor
    · intro h x hx
      simpa using h x ((hmem x).mpr hx)
    · intro h x hx
      simpa using h x ((hmem x).mp hx)
  have hnB1 : ((dedupAdj (sortQ (a ++ b))).all
        (fun x => decide (countLeq a x * b.length ≤ countLeq b x * a.length)) = false) ↔
      (∃ x ∈ a ++ b, countLeq b x * a.length < countLeq a x * b.length) := by
    rw [Bool.eq_false_iff, Ne, hB1]
    push_neg
    constructor
    · rintro ⟨x, hx, hlt⟩; exact ⟨x, hx, hlt⟩
    · rintro ⟨x, hx, hlt⟩; exact ⟨x, hx, hlt⟩
  have hnB2 : ((dedupAdj (sortQ (a ++ b))).all
        (fun x => decide (countLeq b x * a.length ≤ countLeq a x * b.length)) = false) ↔
      (∃ x ∈ a ++ b, countLeq a x * b.length < countLeq b x * a.length) := by
    rw [Bool.eq_false_iff, Ne, hB2]
    push_neg
    constructor
    · rintro ⟨x, hx, hlt⟩; exact ⟨x, hx, hlt⟩
    · rintro ⟨x, hx, hlt⟩; exact ⟨x, hx, hlt⟩
  rcases hb1 : (dedupAdj (sortQ (a ++ b))).all
      (fun x => decide (countLeq a x * b.length ≤ countLeq b x * a.length)) with _ | _ <;>
    rcases hb2 : (dedupAdj (sortQ (a ++ b))).all
      (fun x => decide (countLeq b x * a.length ≤ countLeq a x * b.length)) with _ | _ <;>
      simp only [Bool.and_false, Bool.and_true, Bool.and_self, Bool.false_and,
        Bool.true_and, Bool.false_or, Bool.or_false, Bool.or_self, reduceIte]
  · -- both dominance flags cleared: result is none
    refine ⟨?_, ?_, ?_, ?_⟩
    · constructor
      · intro h; exact absurd h (by simp)
      · rintro ⟨hall, -⟩
        obtain ⟨x0, hx0, hlt0⟩ := hnB1.mp hb1
        exact absurd (hall x0 hx0) (by omega)
    · constructor
      · intro h; exact absurd h (by simp)
      · rintro ⟨hall, -⟩
        obtain ⟨x0, hx0, hlt0⟩ := hnB2.mp hb2
        exact absurd (hall x0 hx0) (by omega)
    · constructor
      · intro h; exact absurd h (by simp)
      · intro hall
        obtain ⟨x0, hx0, hlt0⟩ := hnB1.mp hb1
        have := hall x0 hx0
        omega
    · exact ⟨fun _ => ⟨hnB2.mp hb2, hnB1.mp hb1⟩, fun _ => by trivial⟩
  · -- other dominates self: result is Greater
    have hall := hB2.mp hb2
    obtain ⟨x0, hx0, hlt0⟩ := hnB1.mp hb1
    refine ⟨?_, ?_, ?_, ?_⟩
    · constructor
      · intro h; exact absurd h (by simp)
      · rintro ⟨hall2, -⟩
        exact absurd (hall2 x0 hx0) (by omega)
    · exact ⟨fun _ => ⟨hall, x0, hx0, hlt0⟩, fun _ => by trivial⟩
    · constructor
      · intro h; exact absurd h (by simp)
      · intro heq
        have := heq x0 hx0
        omega
    · constructor
      · intro h; exact absurd h (by simp)
      · rintro ⟨⟨x1, hx1, hlt1⟩, -⟩
        exact absurd (hall x1 hx1) (by omega)
  · -- self dominates other: result is Less
    have hall := hB1.mp hb1
    obtain ⟨x0, hx0, hlt0⟩ := hnB2.mp hb2
    refine ⟨?_, ?_, ?_, ?_⟩
    · exact ⟨fun _ => ⟨hall, x0, hx0, hlt0⟩, fun _ => by trivial⟩
    · constructor
      · intro h; exact absurd h (by simp)
      · rintro ⟨hall2, -⟩
        exact absurd (hall2 x0 hx0) (by omega)
    · constructor
      · intro h; exact absurd h (by simp)
      · intro heq
        have := heq x0 hx0
        omega
    · constructor
      · intro h; exact absurd h (by simp)
      · rintro ⟨-, ⟨x1, hx1, hlt1⟩⟩
        exact absurd (hall x1 hx1) (by omega)
  · -- both dominate: identical distributions, result is Equal
    have hall1 := hB1.mp hb1
    have hall2 := hB2.mp hb2
    refine ⟨?_, ?_, ?_, ?_⟩
    · constructor
      · intro h; exact absurd h (by simp)
      · rintro ⟨-, ⟨x1, hx1, hlt1⟩⟩
        exact absurd (hall2 x1 hx1) (by omega)
    · constructor
      · intro h; exact absurd h (by simp)
      · rintro ⟨-, ⟨x1, hx1, hlt1⟩⟩
        exact absurd (hall1 x1 hx1) (by omega)
    · refine ⟨fun _ x hx => ?_, fun _ => by trivial⟩
      have := hall1 x hx
      have := hall2 x hx
      omega
    · constructor
      · intro h; exact absurd h (by simp)
      · rintro ⟨⟨x1, hx1, hlt1⟩, -⟩
        exact absurd (hall2 x1 hx1) (by omega)

/-- C6 (counterexample): the claim's first example is inverted: the ECDF
of `[1,2,3]` compared with the ECDF of `[2,3,4]` is `Some(Greater)` — the
step function of `[1,2,3]` is pointwise at least that of `[2,3,4]`, so the
second argument dominates — not `Some(Less)` as the claim states. -/
theorem c6_example_direction :
    ecdfPartialCmp [1, 2, 3] [2, 3, 4] ≠ some Ordering.lt ∧
    ecdfPartialCmp [1, 2, 3] [2, 3, 4] = some Ordering.gt := by
  constructor
  · decide
  · decide

/-- C6 (amended): for every pair of non-empty NaN-free ECDFs, the
comparison decides pointwise ordering at each union jump point `x` by the
exact integer products `k₁·n₂` vs `k₂·n₁` (`k` = points `≤ x`):
`Some(Less)` iff the first is pointwise `≤` with strict inequality
somewhere, `Some(Greater)` symmetrically, `Some(Equal)` iff equal
everywhere, `None` iff both directions fail somewhere; the example
`[1,3,5]` vs `[2,2,6]` is incomparable (`None`), while ECDF `[1,2,3]` vs
ECDF `[2,3,4]` compares as `Some(Greater)` (equivalently, `[2,3,4]` vs
`[1,2,3]` is `Some(Less)`). -/
theorem c6_stochastic_dominance :
    (∀ (a b : List ℚ), a ≠ [] → b ≠ [] →
      List.Sorted (· ≤ ·) a → List.Sorted (· ≤ ·) b →
      ((ecdfPartialCmp a b = some Ordering.lt ↔
          (∀ x ∈ a ++ b, countLeq a x * b.length ≤ countLeq b x * a.length) ∧
          (∃ x ∈ a ++ b, countLeq a x * b.length < countLeq b x * a.length)) ∧
       (ecdfPartialCmp a b = some Ordering.gt ↔
          (∀ x ∈ a ++ b, countLeq b x * a.length ≤ countLeq a x * b.length) ∧
          (∃ x ∈ a ++ b, countLeq b x * a.length < countLeq a x * b.length)) ∧
       (ecdfPartialCmp a b = some Ordering.eq ↔
          (∀ x ∈ a ++ b, countLeq a x * b.length = countLeq b x * a.length)) ∧
       (ecdfPartialCmp a b = none ↔
          (∃ x ∈ a ++ b, countLeq a x * b.length < countLeq b x * a.length) ∧
          (∃ x ∈ a ++ b, countLeq b x * a.length < countLeq a x * b.length)))) ∧
    ecdfPartialCmp [1, 3, 5] [2, 2, 6] = none ∧
    ecdfPartialCmp [2, 3, 4] [1, 2, 3] = some Ordering.lt ∧
    ecdfPartialCmp [1, 2, 3] [2, 3, 4] = some Ordering.gt := by
  refine ⟨?_, by decide, by decide, by decide⟩
  intro a b ha hb _hsa _hsb
  exact ecdfPartialCmp_characterization a b ha hb

/-- C6 (witness): the characterization instantiated on the two concrete
three-point ECDFs, where the second argument of the comparison
dominates. -/
theorem c6_stochastic_dominance_witness :
    ([2, 3, 4] : List ℚ) ≠ [] ∧ ([1, 2, 3] : List ℚ) ≠ [] ∧
    List.Sorted (· ≤ ·) ([2, 3, 4] : List ℚ) ∧
    List.Sorted (· ≤ ·) ([1, 2, 3] : List ℚ) ∧
    (ecdfPartialCmp [2, 3, 4] [1, 2, 3] = some Ordering.lt ↔
      (∀ x ∈ ([2, 3, 4] : List ℚ) ++ [1, 2, 3],
        countLeq [2, 3, 4] x * ([1, 2, 3] : List ℚ).length ≤
          countLeq [1, 2, 3] x * ([2, 3, 4] : List ℚ).length) ∧
      (∃ x ∈ ([2, 3, 4] : List ℚ) ++ [1, 2, 3],
        countLeq [2, 3, 4] x * ([1, 2, 3] : List ℚ).length <
          countLeq [1, 2, 3] x * ([2, 3, 4] : List ℚ).length)) :=
  ⟨by decide, by decide, by decide, by decide,
   ((c6_stochastic_dominance.1 [2, 3, 4] [1, 2, 3] (by decide) (by decide)
     (by decide) (by decide)).1)⟩

theorem meanTestExtreme_le (nullMean : F) (nPerm : ℕ) (bits : ℕ → Bool)
    (data : List F) : meanTestExtreme nullMean nPerm bits data ≤ nPerm := by
  unfold meanTestExtreme
  refine le_trans (List.length_filter_le _ _) ?_
  rw [List.length_map, takeCollect_flipper_length]

theorem varianceTestExtreme_le (nullVariance : F) (nPerm : ℕ) (bits : ℕ → Bool)
    (data : List F) : varianceTestExtreme nullVariance nPerm bits data ≤ nPerm := by
  unfold varianceTestExtreme
  refine le_trans (List.length_filter_le _ _) ?_
  rw [List.length_map, takeCollect_flipper_length]

/-- C9: with a non-empty sample (length at least 2 for the variance test)
and a positive permutation count, both permutation tests report
`p = (extreme_count + 1) / (n_permutations + 1)` where `extreme_count`
counts the sign-flip resamples at least as extreme as the observed value;
that count never exceeds `n_permutations`, so the reported p-value is
strictly positive and at most 1. -/
theorem c9_p_value_formula : ∀ (nullMean nullVariance : F) (nPerm : ℕ) (bits : ℕ → Bool)
    (data : List F), 0 < nPerm →
    (data ≠ [] →
      (meanTestCompute nullMean nPerm bits data).p_value =
        some ((meanTestExtreme nullMean nPerm bits data + 1 : ℚ) / (nPerm + 1)) ∧
      meanTestExtreme nullMean nPerm bits data ≤ nPerm ∧
      (∀ q, (meanTestCompute nullMean nPerm bits data).p_value = some q →
        0 < q ∧ q ≤ 1)) ∧
    (2 ≤ data.length →
      (varianceTestCompute nullVariance nPerm bits data).p_value =
        some ((varianceTestExtreme nullVariance nPerm bits data + 1 : ℚ) / (nPerm + 1)) ∧
      varianceTestExtreme nullVariance nPerm bits data ≤ nPerm ∧
      (∀ q, (varianceTestCompute nullVariance nPerm bits data).p_value = some q →
        0 < q ∧ q ≤ 1)) := by
  intro nullMean nullVariance nPerm bits data _hp
  have hd : ((nPerm : ℚ) + 1) ≠ 0 := by positivity
  constructor
  · intro hne
    have hlen : data.length ≠ 0 := fun e => hne (List.length_eq_zero.mp e)
    have hpv : (meanTestCompute nullMean nPerm bits data).p_value =
        some ((meanTestExtreme nullMean nPerm bits data + 1 : ℚ) / (nPerm + 1)) := by
      rw [meanTestCompute, if_neg hlen]
      show Fdiv (FofNat (meanTestExtreme nullMean nPerm bits data + 1))
          (FofNat (nPerm + 1)) =
        some ((meanTestExtreme nullMean nPerm bits data + 1 : ℚ) / (nPerm + 1))
      rw [FofNat, FofNat, Fdiv_some _ _ (by push_cast; positivity)]
      push_cast
      ring_nf
    refine ⟨hpv, meanTestExtreme_le _ _ _ _, ?_⟩
    intro q hq
    rw [hpv] at hq
    obtain rfl : q = (meanTestExtreme nullMean nPerm bits data + 1 : ℚ) / (nPerm + 1) :=
      (Option.some.injEq _ _ ▸ hq).symm
    have he := meanTestExtreme_le nullMean nPerm bits data
    constructor
    · positivity
    · rw [div_le_one (by positivity)]
      have : ((meanTestExtreme nullMean nPerm bits data : ℚ)) ≤ nPerm := by
        exact_mod_cast he
      linarith
  · intro h2
    have hlen : ¬ data.length < 2 := by omega
    have hpv : (varianceTestCompute nullVariance nPerm bits data).p_value =
        some ((varianceTestExtreme nullVariance nPerm bits data + 1 : ℚ) / (nPerm + 1)) := by
      rw [varianceTestCompute, if_neg hlen]
      show Fdiv (FofNat (varianceTestExtreme nullVariance nPerm bits data + 1))
          (FofNat (nPerm + 1)) =
        some ((varianceTestExtreme nullVariance nPerm bits data + 1 : ℚ) / (nPerm + 1))
      rw [FofNat, FofNat, Fdiv_some _ _ (by push_cast; positivity)]
      push_cast
      ring_nf
    refine ⟨hpv, varianceTestExtreme_le _ _ _ _, ?_⟩
    intro q hq
    rw [hpv] at hq
    obtain rfl : q = (varianceTestExtreme nullVariance nPerm bits data + 1 : ℚ) / (nPerm + 1) :=
      (Option.some.injEq _ _ ▸ hq).symm
    have he := varianceTestExtreme_le nullVariance nPerm bits data
    constructor
    · positivity
    · rw [div_le_one (by positivity)]
      have : ((varianceTestExtreme nullVariance nPerm bits data : ℚ)) ≤ nPerm := by
        exact_mod_cast he
      linarith

/-- C9 (witness): the formula instantiated with two permutations on a
singleton sample for the mean test and a two-point sample for the
variance test. -/
theorem c9_p_value_formula_witness :
    ((0 : ℕ) < 2 ∧ ([some 1] : List F) ≠ [] ∧
      (meanTestCompute (some 0) 2 (fun _ => false) [some 1]).p_value =
        some ((meanTestExtreme (some 0) 2 (fun _ => false) [some 1] + 1 : ℚ) / (2 + 1))) ∧
    (2 ≤ ([some 1, some 3] : List F).length ∧
      (varianceTestCompute (some 1) 2 (fun _ => false) [some 1, some 3]).p_value =
        some ((varianceTestExtreme (some 1) 2 (fun _ => false) [some 1, some 3] + 1 : ℚ) /
          (2 + 1))) :=
  ⟨⟨by norm_num, by simp,
    ((c9_p_value_formula (some 0) (some 1) 2 (fun _ => false) [some 1]
      (by norm_num)).1 (by simp)).1⟩,
   ⟨by norm_num,
    ((c9_p_value_formula (some 0) (some 1) 2 (fun _ => false) [some 1, some 3]
      (by norm_num)).2 (by norm_num)).1⟩⟩

/-- Concrete four-point sample used to exercise the studentized
bootstrap: mean 0, jackknife SE exactly 2. -/
def ceData : List F := [some 9, some (-3), some (-3), some (-3)]

/-- A generator stream under which every bootstrap resample of a
four-point sample draws indices `(0, 0, 0, 1)`. -/
def ceRng : Rng := ⟨fun i => if i % 4 = 3 then 1 else 0, 0⟩

/-- A generator stream whose first bootstrap resample draws indices
`(0, 0, 0, 1)` and whose second draws `(0, 1, 2, 3)`. -/
def wRng : Rng := ⟨fun i => if i < 4 then (if i = 3 then 1 else 0) else i % 4, 0⟩

theorem meanCompute_ceData : meanCompute ceData = some 0 := by
  norm_num [meanCompute, kahanSum, kahanStep, Fadd, Fsub, Fmul, Fdiv, Frecip,
    FofNat, ceData]

theorem seCompute_ceData : seCompute meanCompute jackknifeRe 5 ceData = some 2 := by
  have h1 : collectPulls (jackknifeRe ceData) 0 5 =
      [[some (-3), some (-3), some (-3)], [some 9, some (-3), some (-3)],
       [some 9, some (-3), some (-3)], [some 9, some (-3), some (-3)]] := by
    norm_num [collectPulls, jackknifeRe, iterPull, jackknifeNext, ceData]
  rw [seCompute, h1]
  norm_num [meanCompute, varianceCompute, kahanSum, kahanStep, Fadd, Fsub, Fmul,
    Fdiv, Frecip, FofNat, Fsqrt, ratSqrt]
  rw [show ((4 : ℤ).toNat) = 4 from rfl]
  norm_num

theorem seCompute_ceResample :
    seCompute meanCompute jackknifeRe 5 [some 9, some 9, some 9, some (-3)] = some 2 := by
  have h1 : collectPulls (jackknifeRe [some 9, some 9, some 9, some (-3)]) 0 5 =
      [[some 9, some 9, some (-3)], [some 9, some 9, some (-3)],
       [some 9, some 9, some (-3)], [some 9, some 9, some 9]] := by
    norm_num [collectPulls, jackknifeRe, iterPull, jackknifeNext]
  rw [seCompute, h1]
  norm_num [meanCompute, varianceCompute, kahanSum, kahanStep, Fadd, Fsub, Fmul,
    Fdiv, Frecip, FofNat, Fsqrt, ratSqrt]
  rw [show ((4 : ℤ).toNat) = 4 from rfl]
  norm_num

theorem meanCompute_ceResample :
    meanCompute [some 9, some 9, some 9, some (-3)] = some 6 := by
  norm_num [meanCompute, kahanSum, kahanStep, Fadd, Fsub, Fmul, Fdiv, Frecip,
    FofNat]

theorem pivotValues_ceRng :
    pivotValues meanCompute jackknifeRe 5 (bootstrapRe ceRng) 2 ceData =
      [some 3, some 3] := by
  have houter : collectPulls (bootstrapRe ceRng ceData) 0 2 =
      [[some 9, some 9, some 9, some (-3)], [some 9, some 9, some 9, some (-3)]] := by
    norm_num [collectPulls, bootstrapRe, iterPull, bootstrapNext, ceRng, ceData,
      List.range, List.range.loop, List.getD]
  rw [pivotValues, houter, meanCompute_ceData]
  norm_num [List.filterMap, seCompute_ceResample, meanCompute_ceResample,
    FisZero, FisNaN, Fdiv, Fsub]

theorem pivotValues_wRng :
    pivotValues meanCompute jackknifeRe 5 (bootstrapRe wRng) 2 ceData =
      [some 3, some 0] := by
  have houter : collectPulls (bootstrapRe wRng ceData) 0 2 =
      [[some 9, some 9, some 9, some (-3)], ceData] := by
    norm_num [collectPulls, bootstrapRe, iterPull, bootstrapNext, wRng, ceData,
      List.range, List.range.loop, List.getD]
  rw [pivotValues, houter, meanCompute_ceData]
  norm_num [List.filterMap, seCompute_ceResample, meanCompute_ceResample,
    seCompute_ceData, meanCompute_ceData, FisZero, FisNaN, Fdiv, Fsub]

theorem pivotQuantiles_ceRng :
    pivotQuantiles meanCompute jackknifeRe 5 (bootstrapRe ceRng) 2 (19 / 20) ceData =
      some (3, 3) := by
  have hceil1 : (⌈(1 : ℚ) / 20⌉ : ℤ) = 1 := by
    rw [Int.ceil_eq_iff]
    constructor
    · push_cast; norm_num
    · push_cast; norm_num
  have hceil2 : (⌈(39 : ℚ) / 20⌉ : ℤ) = 2 := by
    rw [Int.ceil_eq_iff]
    constructor
    · push_cast; norm_num
    · push_cast; norm_num
  rw [pivotQuantiles, pivotValues_ceRng]
  norm_num [percentileBounds, ecdfFromFloatSlice, sortQ, List.filterMap,
    List.insertionSort, List.orderedInsert, quantileIntervalCompute,
    quantileIndex, hceil1, hceil2, List.getD]
  rw [show ((2 : ℤ).toNat) = 2 from rfl]
  norm_num

theorem pivotQuantiles_wRng :
    pivotQuantiles meanCompute jackknifeRe 5 (bootstrapRe wRng) 2 (19 / 20) ceData =
      some (0, 3) := by
  have hceil1 : (⌈(1 : ℚ) / 20⌉ : ℤ) = 1 := by
    rw [Int.ceil_eq_iff]
    constructor
    · push_cast; norm_num
    · push_cast; norm_num
  have hceil2 : (⌈(39 : ℚ) / 20⌉ : ℤ) = 2 := by
    rw [Int.ceil_eq_iff]
    constructor
    · push_cast; norm_num
    · push_cast; norm_num
  rw [pivotQuantiles, pivotValues_wRng]
  norm_num [percentileBounds, ecdfFromFloatSlice, sortQ, List.filterMap,
    List.insertionSort, List.orderedInsert, quantileIntervalCompute,
    quantileIndex, hceil1, hceil2, List.getD]
  rw [show ((2 : ℤ).toNat) = 2 from rfl]
  norm_num

/-- Shape of the non-degenerate branch of `StudentizedBootstrap::compute`:
with a finite nonzero SE, at least two retained pivots and pivot quantiles
`(t_lo, t_hi)`, the result is the pivotal interval
`[θ̂ - t_hi·SE, θ̂ - t_lo·SE]` with estimate and confidence attached. -/
theorem sbCompute_shape (stat : List F → F) (innerRe : List F → ℕ → Option (List F))
    (seSamples : ℕ) (outerRe : List F → ℕ → Option (List F)) (samples : ℕ)
    (confidence : ℚ) (data : List F) (s : ℚ) (tq : ℚ × ℚ)
    (hse : seCompute stat innerRe seSamples data = some s) (hs0 : s ≠ 0)
    (hlen : ¬ (pivotValues stat innerRe seSamples outerRe samples data).length < 2)
    (hq : pivotQuantiles stat innerRe seSamples outerRe samples confidence data = some tq) :
    studentizedBootstrapCompute stat innerRe seSamples outerRe samples confidence data =
      ⟨Fsub (stat data) (Fmul (some tq.2) (some s)),
       Fsub (stat data) (Fmul (some tq.1) (some s)),
       some (stat data), some (some confidence)⟩ := by
  simp only [studentizedBootstrapCompute]
  rw [hse]
  rw [if_neg (by simp [FisNaN, FisZero, hs0])]
  rw [if_neg hlen]
  rw [hq]

theorem sbCompute_ceRng :
    studentizedBootstrapCompute meanCompute jackknifeRe 5 (bootstrapRe ceRng) 2
      (19 / 20) ceData =
      ⟨some (-6), some (-6), some (some 0), some (some (19 / 20))⟩ := by
  have h := sbCompute_shape meanCompute jackknifeRe 5 (bootstrapRe ceRng) 2
    (19 / 20) ceData 2 (3, 3) seCompute_ceData (by norm_num)
    (by rw [pivotValues_ceRng]; norm_num) pivotQuantiles_ceRng
  rw [h, meanCompute_ceData]
  norm_num [Fsub, Fmul]

theorem sbCompute_wRng :
    studentizedBootstrapCompute meanCompute jackknifeRe 5 (bootstrapRe wRng) 2
      (19 / 20) ceData =
      ⟨some (-6), some 0, some (some 0), some (some (19 / 20))⟩ := by
  have h := sbCompute_shape meanCompute jackknifeRe 5 (bootstrapRe wRng) 2
    (19 / 20) ceData 2 (0, 3) seCompute_ceData (by norm_num)
    (by rw [pivotValues_wRng]; norm_num) pivotQuantiles_wRng
  rw [h, meanCompute_ceData]
  norm_num [Fsub, Fmul]

/-- C3 (counterexample): a concrete configuration — statistic `Mean`,
jackknife-SE inner resampler, bootstrap outer resampler on the sample
`[9, -3, -3, -3]` whose generator always draws indices `(0, 0, 0, 1)` —
returns the finite interval `[-6, -6]` while the point estimate is `0`:
both bounds are non-NaN, yet `contains(θ̂)` is false, because both
retained pivots are `3 > 0` and the pivotal reversal maps them below the
estimate. -/
theorem c3_counterexample :
    FisNaN ((studentizedBootstrapCompute meanCompute jackknifeRe 5
      (bootstrapRe ceRng) 2 (19 / 20) ceData).lower) = false ∧
    FisNaN ((studentizedBootstrapCompute meanCompute jackknifeRe 5
      (bootstrapRe ceRng) 2 (19 / 20) ceData).upper) = false ∧
    intervalContains (studentizedBootstrapCompute meanCompute jackknifeRe 5
      (bootstrapRe ceRng) 2 (19 / 20) ceData) (meanCompute ceData) = false := by
  rw [sbCompute_ceRng, meanCompute_ceData]
  refine ⟨rfl, rfl, ?_⟩
  norm_num [intervalContains, Fle]

/-- C3 (amended): whenever `StudentizedBootstrap::compute` returns an
interval with non-NaN bounds, the retained-pivot quantiles
`(t_lo, t_hi)` exist and `contains(θ̂)` holds exactly when they straddle
zero (`t_lo ≤ 0 ≤ t_hi`); when every retained pivot lies strictly on one
side of zero the interval excludes its own point estimate. -/
theorem c3_studentized_contains : ∀ (stat : List F → F)
    (innerRe : List F → ℕ → Option (List F)) (seSamples : ℕ)
    (outerRe : List F → ℕ → Option (List F)) (samples : ℕ)
    (confidence : ℚ) (data : List F),
    FisNaN ((studentizedBootstrapCompute stat innerRe seSamples outerRe samples
      confidence data).lower) = false →
    FisNaN ((studentizedBootstrapCompute stat innerRe seSamples outerRe samples
      confidence data).upper) = false →
    ∃ tq : ℚ × ℚ,
      pivotQuantiles stat innerRe seSamples outerRe samples confidence data = some tq ∧
      (intervalContains (studentizedBootstrapCompute stat innerRe seSamples outerRe
          samples confidence data) (stat data) = true ↔ tq.1 ≤ 0 ∧ 0 ≤ tq.2) := by
  intro stat innerRe seSamples outerRe samples confidence data hL hU
  cases hse : seCompute stat innerRe seSamples data with
  | none =>
    exfalso
    have hnan : studentizedBootstrapCompute stat innerRe seSamples outerRe samples
        confidence data = intervalNan := by
      simp only [studentizedBootstrapCompute]
      rw [hse]
      simp [FisNaN]
    rw [hnan] at hL
    simp [intervalNan, intervalNew, FisNaN] at hL
  | some s =>
    by_cases hs0 : s = 0
    · exfalso
      have hnan : studentizedBootstrapCompute stat innerRe seSamples outerRe samples
          confidence data = intervalNan := by
        simp only [studentizedBootstrapCompute]
        rw [hse, hs0]
        simp [FisNaN, FisZero]
      rw [hnan] at hL
      simp [intervalNan, intervalNew, FisNaN] at hL
    · by_cases hlen : (pivotValues stat innerRe seSamples outerRe samples data).length < 2
      · exfalso
        have hnan : studentizedBootstrapCompute stat innerRe seSamples outerRe samples
            confidence data = intervalNan := by
          simp only [studentizedBootstrapCompute]
          rw [hse]
          rw [if_neg (by simp [FisNaN, FisZero, hs0])]
          rw [if_pos hlen]
        rw [hnan] at hL
        simp [intervalNan, intervalNew, FisNaN] at hL
      · cases hq : pivotQuantiles stat innerRe seSamples outerRe samples confidence data with
        | none =>
          exfalso
          have hnan : studentizedBootstrapCompute stat innerRe seSamples outerRe samples
              confidence data = intervalNan := by
            simp only [studentizedBootstrapCompute]
            rw [hse]
            rw [if_neg (by simp [FisNaN, FisZero, hs0])]
            rw [if_neg hlen]
            rw [hq]
          rw [hnan] at hL
          simp [intervalNan, intervalNew, FisNaN] at hL
        | some tq =>
          have hshape := sbCompute_shape stat innerRe seSamples outerRe samples
            confidence data s tq hse hs0 hlen hq
          have hsnn : 0 ≤ s := Fsqrt_eq_some _ s hse
          have hspos : 0 < s := lt_of_le_of_ne hsnn (Ne.symm hs0)
          rw [hshape] at hL
          cases hθ : stat data with
          | none =>
            exfalso
            rw [hθ] at hL
            simp [Fsub, Fmul, FisNaN] at hL
          | some t =>
            refine ⟨tq, rfl, ?_⟩
            rw [hshape, hθ]
            show (Fle (Fsub (some t) (Fmul (some tq.2) (some s))) (some t) &&
              Fle (some t) (Fsub (some t) (Fmul (some tq.1) (some s)))) = true ↔ _
            simp only [Fmul_some, Fsub_some, Fle, Bool.and_eq_true, decide_eq_true_eq]
            constructor
            · rintro ⟨h1, h2⟩
              constructor
              · nlinarith
              · nlinarith
            · rintro ⟨h1, h2⟩
              constructor
              · nlinarith
              · nlinarith

/-- C3 (witness): the amended statement at a configuration whose two
retained pivots are `3` and `0`: the quantile pair `(0, 3)` straddles
zero and the returned interval `[-6, 0]` does contain the estimate 0. -/
theorem c3_studentized_contains_witness :
    FisNaN ((studentizedBootstrapCompute meanCompute jackknifeRe 5
      (bootstrapRe wRng) 2 (19 / 20) ceData).lower) = false ∧
    FisNaN ((studentizedBootstrapCompute meanCompute jackknifeRe 5
      (bootstrapRe wRng) 2 (19 / 20) ceData).upper) = false ∧
    ∃ tq : ℚ × ℚ,
      pivotQuantiles meanCompute jackknifeRe 5 (bootstrapRe wRng) 2 (19 / 20)
        ceData = some tq ∧
      (intervalContains (studentizedBootstrapCompute meanCompute jackknifeRe 5
          (bootstrapRe wRng) 2 (19 / 20) ceData) (meanCompute ceData) = true ↔
        tq.1 ≤ 0 ∧ 0 ≤ tq.2) :=
  ⟨by rw [sbCompute_wRng]; rfl, by rw [sbCompute_wRng]; rfl,
   c3_studentized_contains meanCompute jackknifeRe 5 (bootstrapRe wRng) 2
     (19 / 20) ceData (by rw [sbCompute_wRng]; rfl) (by rw [sbCompute_wRng]; rfl)⟩

end Zima
